import Mathlib

set_option maxHeartbeats 1000000

/-! Shallow embedding of the recursive sphere-subdivision generator and the
Painter-algorithm renderer of src/Module8/webgl-HSRP.js (the generator is
shared verbatim with src/Module6/webgl-shading.js), together with proofs of
the specified properties. -/

/-- A 3-component vector: the model of a gl-matrix vec3 value holding one
mesh vertex or camera vector. -/
structure Vec3 (α : Type) where
  x : α
  y : α
  z : α
  deriving DecidableEq

/-- The pair of output arrays threaded through refineSphere.  The source
keeps a flat float array with three floats per vertex, so the JS expression
vertices.length / 3 is the length of the `vertices` list here, where the
flat array is grouped into its Vec3 triples; `indices` is the index array. -/
structure Mesh (α : Type) where
  vertices : List (Vec3 α)
  indices : List Nat
  deriving DecidableEq

/-- The gl-matrix operation vec3.add: componentwise sum. -/
def vadd {α : Type} [Add α] (a b : Vec3 α) : Vec3 α :=
  ⟨a.x + b.x, a.y + b.y, a.z + b.z⟩

/-- The gl-matrix operation vec3.normalize over the reals: with len the
squared length, scale by 1 / sqrt len when len is positive, otherwise (only
the zero vector) scale by len = 0 itself, exactly as the library does. -/
noncomputable def vnormalize (a : Vec3 ℝ) : Vec3 ℝ :=
  let len : ℝ := a.x * a.x + a.y * a.y + a.z * a.z
  let scale : ℝ := if 0 < len then 1 / Real.sqrt len else len
  ⟨a.x * scale, a.y * scale, a.z * scale⟩

/-- The midpoint step used by refineSphere in the recursive case:
vec3.add of the two endpoints followed by vec3.normalize. -/
noncomputable def midReal (u v : Vec3 ℝ) : Vec3 ℝ := vnormalize (vadd u v)

/-- The function refineSphere(v1, v2, v3, depth, vertices, indices) of the
source, with the mutated arrays passed as explicit state.  The midpoint
arithmetic is abstracted as `mid` so that the structural lemmas hold for
any vertex arithmetic; the program instance is `mid := midReal`.  At depth
0 it appends the three vertices and the index triple starting at the
vertex count found on entry (indexOffset = vertices.length / 3 in the
source's flat-array representation); otherwise it recurses on the four
child triangles in source order at depth - 1. -/
def refineSphere {α : Type} (mid : Vec3 α → Vec3 α → Vec3 α) :
    Vec3 α → Vec3 α → Vec3 α → Nat → Mesh α → Mesh α
  | v1, v2, v3, 0, s =>
    ⟨s.vertices ++ [v1, v2, v3],
      s.indices ++ [s.vertices.length, s.vertices.length + 1, s.vertices.length + 2]⟩
  | v1, v2, v3, d + 1, s =>
    let mid12 := mid v1 v2
    let mid23 := mid v2 v3
    let mid31 := mid v3 v1
    refineSphere mid mid12 mid23 mid31 d
      (refineSphere mid v3 mid31 mid23 d
        (refineSphere mid v2 mid23 mid12 d
          (refineSphere mid v1 mid12 mid31 d s)))

/-- The fixed base tetrahedron vertex initialA = (0.0, 0.0, -1.0). -/
def initialA : Vec3 ℝ := ⟨0, 0, -1⟩

/-- The fixed base tetrahedron vertex initialB = (0.0, 0.942809, 0.333333). -/
def initialB : Vec3 ℝ := ⟨0, 0.942809, 0.333333⟩

/-- The fixed base tetrahedron vertex initialC = (-0.816497, -0.471405, 0.333333). -/
def initialC : Vec3 ℝ := ⟨-0.816497, -0.471405, 0.333333⟩

/-- The fixed base tetrahedron vertex initialD = (0.816497, -0.471405, 0.333333). -/
def initialD : Vec3 ℝ := ⟨0.816497, -0.471405, 0.333333⟩

/-- The function createSphereBuffers(glContext, recursionLevel), minus the
GL buffer upload boilerplate: starting from two empty arrays it refines the
four tetrahedron faces (A,B,C), (D,C,B), (A,D,B), (A,C,D) in source order
and returns the raw mesh data. -/
noncomputable def createSphereBuffers (recursionLevel : Nat) : Mesh ℝ :=
  refineSphere midReal initialA initialC initialD recursionLevel
    (refineSphere midReal initialA initialD initialB recursionLevel
      (refineSphere midReal initialD initialC initialB recursionLevel
        (refineSphere midReal initialA initialB initialC recursionLevel ⟨[], []⟩)))

/-- The spec's fixed face list, written exactly in the spec's order:
(A,B,C), (D,C,B), (A,D,B), (A,C,D).  Used to compare the source's four
hand-written calls against the spec's description of them. -/
def baseFaces : List (Vec3 ℝ × Vec3 ℝ × Vec3 ℝ) :=
  [(initialA, initialB, initialC), (initialD, initialC, initialB),
    (initialA, initialD, initialB), (initialA, initialC, initialD)]

/-- Fuel-indexed form of refineSphere with the source's actual control
flow: the JS function tests depth === 0 and otherwise recurses on
depth - 1, so depth is an arbitrary integer here.  `none` means the
recursion did not reach a base case within `fuel` nested calls. -/
def refineSphereFuel {α : Type} (mid : Vec3 α → Vec3 α → Vec3 α) :
    Nat → Vec3 α → Vec3 α → Vec3 α → Int → Mesh α → Option (Mesh α)
  | 0, _, _, _, _, _ => none
  | fuel + 1, v1, v2, v3, depth, s =>
    if depth = 0 then
      some ⟨s.vertices ++ [v1, v2, v3],
        s.indices ++ [s.vertices.length, s.vertices.length + 1, s.vertices.length + 2]⟩
    else
      let mid12 := mid v1 v2
      let mid23 := mid v2 v3
      let mid31 := mid v3 v1
      (refineSphereFuel mid fuel v1 mid12 mid31 (depth - 1) s).bind fun s1 =>
        (refineSphereFuel mid fuel v2 mid23 mid12 (depth - 1) s1).bind fun s2 =>
          (refineSphereFuel mid fuel v3 mid31 mid23 (depth - 1) s2).bind fun s3 =>
            refineSphereFuel mid fuel mid12 mid23 mid31 (depth - 1) s3

/-- The vertex entries appended by one refineSphere call, as a pure
function of the input triangle and the depth alone. -/
def refineVerts {α : Type} (mid : Vec3 α → Vec3 α → Vec3 α) :
    Vec3 α → Vec3 α → Vec3 α → Nat → List (Vec3 α)
  | v1, v2, v3, 0 => [v1, v2, v3]
  | v1, v2, v3, d + 1 =>
    let mid12 := mid v1 v2
    let mid23 := mid v2 v3
    let mid31 := mid v3 v1
    refineVerts mid v1 mid12 mid31 d ++ refineVerts mid v2 mid23 mid12 d ++
      refineVerts mid v3 mid31 mid23 d ++ refineVerts mid mid12 mid23 mid31 d

/-- The index entries appended by one refineSphere call: 3 * 4 ^ d
consecutive indices starting at the vertex count n found on entry. -/
def refineIdxs (n d : Nat) : List Nat :=
  (List.range (3 * 4 ^ d)).map (n + ·)

/-- Squared Euclidean length of a vertex. -/
def normSq (v : Vec3 ℝ) : ℝ := v.x * v.x + v.y * v.y + v.z * v.z

/-- Euclidean distance of a vertex from the origin. -/
noncomputable def vlen (v : Vec3 ℝ) : ℝ := Real.sqrt (normSq v)

/-- Dot product of two vertices. -/
def dotV (u v : Vec3 ℝ) : ℝ := u.x * v.x + u.y * v.y + u.z * v.z

/-- Vertex invariant: the squared length is within 1e-5 of 1 (the base
points satisfy it exactly-rationally, every normalized midpoint satisfies
it with value exactly 1). -/
def GoodV (v : Vec3 ℝ) : Prop := |normSq v - 1| ≤ 1 / 100000

/-- Triangle invariant carried through the refinement: all three corners
satisfy GoodV and the pairwise dot products are at least -0.35 (the base
faces sit at about -0.3333), which keeps every edge sum away from the zero
vector so normalization lands exactly on the unit sphere. -/
def GoodTri (u v w : Vec3 ℝ) : Prop :=
  GoodV u ∧ GoodV v ∧ GoodV w ∧
    -(35 / 100) ≤ dotV u v ∧ -(35 / 100) ≤ dotV v w ∧ -(35 / 100) ≤ dotV w u

/-- A gl-matrix mat4 in its column-major flat layout: field aK models flat
slot K of the model-view matrix handed to the per-triangle transform.  The
renderer is embedded over exact rationals. -/
structure Mat4 where
  a0 : ℚ
  a1 : ℚ
  a2 : ℚ
  a3 : ℚ
  a4 : ℚ
  a5 : ℚ
  a6 : ℚ
  a7 : ℚ
  a8 : ℚ
  a9 : ℚ
  a10 : ℚ
  a11 : ℚ
  a12 : ℚ
  a13 : ℚ
  a14 : ℚ
  a15 : ℚ
  deriving DecidableEq

/-- The helper transformVertex(matrix, vertex) of the source: promote the
vertex to homogeneous coordinates with w = 1, apply vec4.transformMat4,
and return only the x, y, z components (the computed w is dropped by the
source in the same way). -/
def transformVertex (m : Mat4) (v : Vec3 ℚ) : Vec3 ℚ :=
  ⟨m.a0 * v.x + m.a4 * v.y + m.a8 * v.z + m.a12,
    m.a1 * v.x + m.a5 * v.y + m.a9 * v.z + m.a13,
    m.a2 * v.x + m.a6 * v.y + m.a10 * v.z + m.a14⟩

/-- One render-time triangle record as pushed by renderSphere: the nine
model-space floats spread as [...v0, ...v1, ...v2] and the view-space
avgDepth sort key. -/
structure Triangle where
  vertices : List ℚ
  avgDepth : ℚ
  deriving DecidableEq

/-- The triangle-building loop of renderSphere: walk the index list three
at a time, fetch the three referenced vertices from the vertex array
(the source reads the flat floats at indices[i] * 3 and following; here
the flat array appears grouped as Vec3 entries), transform each into view
space only to average the z components, and record the untransformed
model-space coordinates with that avgDepth.  The generated meshes always
satisfy len(indices) % 3 == 0, so a trailing partial triple never occurs
and is not processed here. -/
def buildTriangles (vs : List (Vec3 ℚ)) (m : Mat4) : List Nat → List Triangle
  | i0 :: i1 :: i2 :: rest =>
    let v0 := vs.getD i0 ⟨0, 0, 0⟩
    let v1 := vs.getD i1 ⟨0, 0, 0⟩
    let v2 := vs.getD i2 ⟨0, 0, 0⟩
    let t0 := transformVertex m v0
    let t1 := transformVertex m v1
    let t2 := transformVertex m v2
    ⟨[v0.x, v0.y, v0.z, v1.x, v1.y, v1.z, v2.x, v2.y, v2.z],
      (t0.z + t1.z + t2.z) / 3⟩ :: buildTriangles vs m rest
  | _ => []

/-- The mesh's own triangle list: for each index triple the nine
model-space vertex components fetched from the vertex array, with no
transform involved.  This is the reference against which the emitted draw
commands are compared. -/
def modelTriangles (vs : List (Vec3 ℚ)) : List Nat → List (List ℚ)
  | i0 :: i1 :: i2 :: rest =>
    let v0 := vs.getD i0 ⟨0, 0, 0⟩
    let v1 := vs.getD i1 ⟨0, 0, 0⟩
    let v2 := vs.getD i2 ⟨0, 0, 0⟩
    [v0.x, v0.y, v0.z, v1.x, v1.y, v1.z, v2.x, v2.y, v2.z] :: modelTriangles vs rest
  | _ => []

/-- Insert one triangle into an already sorted tail, before the first
element whose avgDepth is not smaller.  Together with sortByDepth this
computes the unique stable ascending reordering, which is what the
source's triangles.sort((a, b) => a.avgDepth - b.avgDepth) is specified
to produce: since ES2019 Array.prototype.sort is stable, and this
comparator orders ascending by avgDepth. -/
def sortInsert (t : Triangle) : List Triangle → List Triangle
  | [] => [t]
  | u :: us => if t.avgDepth ≤ u.avgDepth then t :: u :: us else u :: sortInsert t us

/-- The sort step of renderSphere, as the stable ascending-by-avgDepth
insertion sort. -/
def sortByDepth : List Triangle → List Triangle
  | [] => []
  | t :: ts => sortInsert t (sortByDepth ts)

/-- A JS double as far as the color computation can observe it: an exact
value, NaN, or a signed infinity. -/
inductive JsNum where
  | num : ℚ → JsNum
  | nan : JsNum
  | posInf : JsNum
  | negInf : JsNum
  deriving DecidableEq

/-- JS division of two ordinary numbers: 0 / 0 is NaN, x / 0 for nonzero
x is a signed infinity, otherwise the exact quotient. -/
def jsDiv (x y : ℚ) : JsNum :=
  if y = 0 then if x = 0 then JsNum.nan else if 0 < x then JsNum.posInf else JsNum.negInf
  else JsNum.num (x / y)

/-- The JS expression 1.0 - t for a possibly non-finite t. -/
def jsSub1 : JsNum → JsNum
  | JsNum.num q => JsNum.num (1 - q)
  | JsNum.nan => JsNum.nan
  | JsNum.posInf => JsNum.negInf
  | JsNum.negInf => JsNum.posInf

/-- An RGBA color as passed to uniform4fv. -/
structure Color where
  r : JsNum
  g : JsNum
  b : JsNum
  a : JsNum
  deriving DecidableEq

/-- The gradient color of the triangle at position `index` of `n` total:
t = index / (n - 1) (JS division, so 0 / 0 is NaN when n = 1), color
(r, g, b, a) = (t, 0.0, 1.0 - t, 1.0). -/
def triangleColor (index n : Nat) : Color :=
  let t := jsDiv (index : ℚ) ((n : ℚ) - 1)
  ⟨t, JsNum.num 0, jsSub1 t, JsNum.num 1⟩

/-- The forEach color-assignment pass over the sorted list: pair the
element at position i with triangleColor i n, where n is the length of
the full list. -/
def assignColorsAux (n : Nat) : Nat → List Triangle → List (Triangle × Color)
  | _, [] => []
  | i, t :: ts => (t, triangleColor i n) :: assignColorsAux n (i + 1) ts

/-- The color assignment of renderSphere applied to a triangle list. -/
def assignColors (ts : List Triangle) : List (Triangle × Color) :=
  assignColorsAux ts.length 0 ts

/-- One frame of renderSphere as its observable draw-command sequence:
build the triangle records from the mesh and the model-view matrix, sort
them back to front by avgDepth, and emit each with its gradient color in
that order. -/
def renderSphere (vs : List (Vec3 ℚ)) (idxs : List Nat) (m : Mat4) :
    List (Triangle × Color) :=
  assignColors (sortByDepth (buildTriangles vs m idxs))

theorem refineSphere_vertices_length {α : Type} (mid : Vec3 α → Vec3 α → Vec3 α)
    (v1 v2 v3 : Vec3 α) (d : Nat) (s : Mesh α) :
    (refineSphere mid v1 v2 v3 d s).vertices.length = s.vertices.length + 3 * 4 ^ d := by
  induction d generalizing v1 v2 v3 s with
  | zero => simp [refineSphere]
  | succ d ih =>
    simp only [refineSphere, ih]
    ring

theorem refineSphere_indices_length {α : Type} (mid : Vec3 α → Vec3 α → Vec3 α)
    (v1 v2 v3 : Vec3 α) (d : Nat) (s : Mesh α) :
    (refineSphere mid v1 v2 v3 d s).indices.length = s.indices.length + 3 * 4 ^ d := by
  induction d generalizing v1 v2 v3 s with
  | zero => simp [refineSphere]
  | succ d ih =>
    simp only [refineSphere, ih]
    ring

theorem range_add_three (n : Nat) :
    List.range (n + 3) = List.range n ++ [n, n + 1, n + 2] := by
  rw [show n + 3 = (n + 2) + 1 from rfl, List.range_succ,
    show n + 2 = (n + 1) + 1 from rfl, List.range_succ, List.range_succ]
  simp

theorem refineSphere_indices_range {α : Type} (mid : Vec3 α → Vec3 α → Vec3 α)
    (v1 v2 v3 : Vec3 α) (d : Nat) (s : Mesh α)
    (h : s.indices = List.range s.vertices.length) :
    (refineSphere mid v1 v2 v3 d s).indices =
      List.range (refineSphere mid v1 v2 v3 d s).vertices.length := by
  induction d generalizing v1 v2 v3 s with
  | zero =>
    simp only [refineSphere, h, List.length_append, List.length_cons,
      List.length_nil]
    rw [show s.vertices.length + (0 + 1 + 1 + 1) = s.vertices.length + 3 by omega,
      range_add_three]
  | succ d ih =>
    exact ih _ _ _ _ (ih _ _ _ _ (ih _ _ _ _ (ih _ _ _ _ h)))

theorem refineVerts_length {α : Type} (mid : Vec3 α → Vec3 α → Vec3 α)
    (v1 v2 v3 : Vec3 α) (d : Nat) :
    (refineVerts mid v1 v2 v3 d).length = 3 * 4 ^ d := by
  induction d generalizing v1 v2 v3 with
  | zero => rfl
  | succ d ih =>
    simp only [refineVerts, List.length_append, ih]
    ring

theorem refineIdxs_add (n a b : Nat) :
    (List.range (a + b)).map (n + ·) =
      (List.range a).map (n + ·) ++ (List.range b).map (n + a + ·) := by
  rw [List.range_add, List.map_append, List.map_map]
  congr 1
  apply List.map_congr_left
  intro x _
  simp only [Function.comp_apply]
  omega

theorem refineIdxs_succ (n d : Nat) :
    refineIdxs n (d + 1) =
      refineIdxs n d ++ refineIdxs (n + 3 * 4 ^ d) d ++
        refineIdxs (n + 3 * 4 ^ d + 3 * 4 ^ d) d ++
          refineIdxs (n + 3 * 4 ^ d + 3 * 4 ^ d + 3 * 4 ^ d) d := by
  unfold refineIdxs
  rw [show 3 * 4 ^ (d + 1) = 3 * 4 ^ d + (3 * 4 ^ d + (3 * 4 ^ d + 3 * 4 ^ d)) by ring]
  rw [refineIdxs_add, refineIdxs_add, refineIdxs_add]
  simp [List.append_assoc]

theorem refineSphere_decomp {α : Type} (mid : Vec3 α → Vec3 α → Vec3 α)
    (v1 v2 v3 : Vec3 α) (d : Nat) (s : Mesh α) :
    refineSphere mid v1 v2 v3 d s =
      ⟨s.vertices ++ refineVerts mid v1 v2 v3 d,
        s.indices ++ refineIdxs s.vertices.length d⟩ := by
  induction d generalizing v1 v2 v3 s with
  | zero => rfl
  | succ d ih =>
    simp only [refineSphere, refineVerts]
    rw [ih, ih, ih, ih]
    simp only [Mesh.mk.injEq, List.length_append, refineVerts_length,
      refineIdxs_succ, List.append_assoc]
    refine ⟨trivial, ?_⟩
    simp only [Nat.add_assoc]

/-- C1: for every depth, generate(depth) = createSphereBuffers(depth)
produces an index list of length 4 * 4^depth * 3 and exactly as many Vec3
vertex entries as indices (no deduplication); at depth 0 that is 4
triangles and 12 vertices, at depth 1, 16 triangles and 48 vertices. -/
theorem c1_generate_counts :
    (∀ depth : Nat,
        (createSphereBuffers depth).indices.length = 4 * 4 ^ depth * 3 ∧
          (createSphereBuffers depth).vertices.length =
            (createSphereBuffers depth).indices.length) ∧
      (createSphereBuffers 0).indices.length / 3 = 4 ∧
        (createSphereBuffers 0).vertices.length = 12 ∧
          (createSphereBuffers 1).indices.length / 3 = 16 ∧
            (createSphereBuffers 1).vertices.length = 48 := by
  have h : ∀ depth : Nat,
      (createSphereBuffers depth).indices.length = 4 * 4 ^ depth * 3 ∧
        (createSphereBuffers depth).vertices.length =
          (createSphereBuffers depth).indices.length := by
    intro depth
    unfold createSphereBuffers
    simp only [refineSphere_indices_length, refineSphere_vertices_length,
      List.length_nil]
    constructor <;> ring_nf
  obtain ⟨hi0, hv0⟩ := h 0
  obtain ⟨hi1, hv1⟩ := h 1
  refine ⟨h, ?_, ?_, ?_, ?_⟩
  · rw [hi0]
    norm_num
  · rw [hv0, hi0]
    norm_num
  · rw [hi1]
    norm_num
  · rw [hv1, hi1]
    norm_num

/-- C2: the generator refines exactly the four base faces (A,B,C),
(D,C,B), (A,D,B), (A,C,D) of the fixed tetrahedron in that order, and in
the recursive case refineSphere computes the normalized midpoints of the
edges (v1,v2), (v2,v3), (v3,v1) and recurses on the four child triangles
(v1, mid12, mid31), (v2, mid23, mid12), (v3, mid31, mid23),
(mid12, mid23, mid31) in exactly this order, each at depth - 1. -/
theorem c2_refinement_structure :
    (∀ depth : Nat,
        createSphereBuffers depth =
          baseFaces.foldl
            (fun s f => refineSphere midReal f.1 f.2.1 f.2.2 depth s) ⟨[], []⟩) ∧
      ∀ (v1 v2 v3 : Vec3 ℝ) (d : Nat) (s : Mesh ℝ),
        refineSphere midReal v1 v2 v3 (d + 1) s =
          refineSphere midReal (vnormalize (vadd v1 v2)) (vnormalize (vadd v2 v3))
            (vnormalize (vadd v3 v1)) d
            (refineSphere midReal v3 (vnormalize (vadd v3 v1))
              (vnormalize (vadd v2 v3)) d
              (refineSphere midReal v2 (vnormalize (vadd v2 v3))
                (vnormalize (vadd v1 v2)) d
                (refineSphere midReal v1 (vnormalize (vadd v1 v2))
                  (vnormalize (vadd v3 v1)) d s))) := by
  constructor
  · intro depth
    rfl
  · intro v1 v2 v3 d s
    rfl

/-- C7: at depth 0, refineSphere appends exactly v1, v2, v3 as three new
non-deduplicated vertex entries and appends the index triple
(n, n + 1, n + 2) with n the vertex count before the append; consequently
every full generate(depth) has an index list that is exactly the identity
sequence 0, 1, ..., len(indices) - 1. -/
theorem c7_base_case_identity_indices :
    (∀ (v1 v2 v3 : Vec3 ℝ) (s : Mesh ℝ),
        refineSphere midReal v1 v2 v3 0 s =
          ⟨s.vertices ++ [v1, v2, v3],
            s.indices ++ [s.vertices.length, s.vertices.length + 1,
              s.vertices.length + 2]⟩) ∧
      ∀ depth : Nat,
        (createSphereBuffers depth).indices =
          List.range (createSphereBuffers depth).indices.length := by
  constructor
  · intro v1 v2 v3 s
    rfl
  · intro depth
    have hlen : (createSphereBuffers depth).vertices.length =
        (createSphereBuffers depth).indices.length := by
      unfold createSphereBuffers
      simp only [refineSphere_indices_length, refineSphere_vertices_length,
        List.length_nil]
    have h : (createSphereBuffers depth).indices =
        List.range (createSphereBuffers depth).vertices.length := by
      unfold createSphereBuffers
      apply refineSphere_indices_range
      apply refineSphere_indices_range
      apply refineSphere_indices_range
      apply refineSphere_indices_range
      rfl
    rw [hlen] at h
    exact h

theorem refineSphereFuel_succ_eq {α : Type} (mid : Vec3 α → Vec3 α → Vec3 α)
    (fuel : Nat) (v1 v2 v3 : Vec3 α) (depth : Int) (s : Mesh α) :
    refineSphereFuel mid (fuel + 1) v1 v2 v3 depth s =
      if depth = 0 then
        some ⟨s.vertices ++ [v1, v2, v3],
          s.indices ++ [s.vertices.length, s.vertices.length + 1,
            s.vertices.length + 2]⟩
      else
        (refineSphereFuel mid fuel v1 (mid v1 v2) (mid v3 v1) (depth - 1) s).bind
          fun s1 =>
            (refineSphereFuel mid fuel v2 (mid v2 v3) (mid v1 v2) (depth - 1)
                s1).bind fun s2 =>
              (refineSphereFuel mid fuel v3 (mid v3 v1) (mid v2 v3) (depth - 1)
                  s2).bind fun s3 =>
                refineSphereFuel mid fuel (mid v1 v2) (mid v2 v3) (mid v3 v1)
                  (depth - 1) s3 := rfl

theorem refineSphereFuel_eq {α : Type} (mid : Vec3 α → Vec3 α → Vec3 α)
    (d : Nat) : ∀ (v1 v2 v3 : Vec3 α) (s : Mesh α),
    refineSphereFuel mid (d + 1) v1 v2 v3 (d : Int) s =
      some (refineSphere mid v1 v2 v3 d s) := by
  induction d with
  | zero =>
    intro v1 v2 v3 s
    simp [refineSphereFuel, refineSphere]
  | succ d ih =>
    intro v1 v2 v3 s
    have h0 : ¬((d + 1 : Nat) : Int) = 0 := by exact_mod_cast Nat.succ_ne_zero d
    have hcast : ((d + 1 : Nat) : Int) - 1 = (d : Int) := by push_cast; ring
    rw [refineSphereFuel_succ_eq, if_neg h0, hcast]
    simp only [ih, Option.some_bind]
    rfl

/-- C8: for every non-negative integer depth and any input triangle and
state, the source's recursion (which tests depth === 0 and recurses on
depth - 1 over the integers) terminates within depth + 1 nested calls and
computes refineSphere: the depth argument strictly decreases and the base
case always returns. -/
theorem c8_refine_terminates :
    ∀ (depth : Nat) (v1 v2 v3 : Vec3 ℝ) (s : Mesh ℝ),
      refineSphereFuel midReal (depth + 1) v1 v2 v3 (depth : Int) s =
        some (refineSphere midReal v1 v2 v3 depth s) :=
  fun depth v1 v2 v3 s => refineSphereFuel_eq midReal depth v1 v2 v3 s

/-- C9 (amended): refineSphere only appends to the two output sequences —
everything present before the call is unchanged and in place — and the
appended vertex suffix is a pure function of (v1, v2, v3, depth); the
appended index suffix is a pure function of depth and of the vertex count
found on entry (3 * 4^depth consecutive indices starting there), not of
(v1, v2, v3, depth) alone. -/
theorem c9_refine_appends :
    ∀ (v1 v2 v3 : Vec3 ℝ) (d : Nat) (s : Mesh ℝ),
      refineSphere midReal v1 v2 v3 d s =
        ⟨s.vertices ++ refineVerts midReal v1 v2 v3 d,
          s.indices ++ refineIdxs s.vertices.length d⟩ :=
  fun v1 v2 v3 d s => refineSphere_decomp midReal v1 v2 v3 d s

/-- C9 counterexample: the appended suffix is not a pure function of
(v1, v2, v3, depth) alone — the same call made on an empty state and on a
state already holding one vertex appends different index triples ([0,1,2]
against [1,2,3]). -/
theorem c9_counterexample :
    (refineSphere midReal initialA initialB initialC 0
        ⟨[initialA], []⟩).indices ≠
      (refineSphere midReal initialA initialB initialC 0 ⟨[], []⟩).indices := by
  simp [refineSphere]

theorem mem_sortInsert (x t : Triangle) (l : List Triangle) :
    x ∈ sortInsert t l ↔ x = t ∨ x ∈ l := by
  induction l with
  | nil => simp [sortInsert]
  | cons u us ih =>
    simp only [sortInsert]
    split
    · simp [List.mem_cons]
    · simp only [List.mem_cons, ih]
      tauto

theorem sortInsert_perm (t : Triangle) (l : List Triangle) :
    (sortInsert t l).Perm (t :: l) := by
  induction l with
  | nil => simp [sortInsert]
  | cons u us ih =>
    simp only [sortInsert]
    split
    · exact List.Perm.refl _
    · exact (ih.cons u).trans (List.Perm.swap t u us)

theorem sortByDepth_perm (l : List Triangle) : (sortByDepth l).Perm l := by
  induction l with
  | nil => exact List.Perm.refl _
  | cons t ts ih => exact (sortInsert_perm t (sortByDepth ts)).trans (ih.cons t)

theorem sortInsert_pairwise (t : Triangle) (l : List Triangle)
    (h : List.Pairwise (fun a b => a.avgDepth ≤ b.avgDepth) l) :
    List.Pairwise (fun a b => a.avgDepth ≤ b.avgDepth) (sortInsert t l) := by
  induction l with
  | nil => simp [sortInsert]
  | cons u us ih =>
    rcases List.pairwise_cons.mp h with ⟨hu, hus⟩
    simp only [sortInsert]
    split
    case isTrue hle =>
      refine List.pairwise_cons.mpr ⟨?_, h⟩
      intro b hb
      rcases List.mem_cons.mp hb with rfl | hb2
      · exact hle
      · exact le_trans hle (hu b hb2)
    case isFalse hgt =>
      refine List.pairwise_cons.mpr ⟨?_, ih hus⟩
      intro b hb
      rcases (mem_sortInsert b t us).mp hb with rfl | hb2
      · exact le_of_lt (not_le.mp hgt)
      · exact hu b hb2

theorem sortByDepth_pairwise (l : List Triangle) :
    List.Pairwise (fun a b => a.avgDepth ≤ b.avgDepth) (sortByDepth l) := by
  induction l with
  | nil => simp [sortByDepth]
  | cons t ts ih => exact sortInsert_pairwise t (sortByDepth ts) ih

theorem filter_sortInsert (d : ℚ) (t : Triangle) (l : List Triangle) :
    (sortInsert t l).filter (fun u => decide (u.avgDepth = d)) =
      if t.avgDepth = d then
        t :: l.filter (fun u => decide (u.avgDepth = d))
      else l.filter (fun u => decide (u.avgDepth = d)) := by
  induction l with
  | nil =>
    by_cases htd : t.avgDepth = d <;> simp [sortInsert, List.filter, htd]
  | cons u us ih =>
    simp only [sortInsert]
    by_cases hle : t.avgDepth ≤ u.avgDepth
    · rw [if_pos hle]
      by_cases htd : t.avgDepth = d <;> simp [List.filter_cons, htd]
    · rw [if_neg hle]
      by_cases htd : t.avgDepth = d
      · have hud : ¬u.avgDepth = d := by
          intro hud
          exact hle (le_of_eq (htd.trans hud.symm))
        simp [List.filter_cons, hud, htd, ih]
      · by_cases hud : u.avgDepth = d <;> simp [List.filter_cons, hud, htd, ih]

theorem filter_sortByDepth (d : ℚ) (l : List Triangle) :
    (sortByDepth l).filter (fun u => decide (u.avgDepth = d)) =
      l.filter (fun u => decide (u.avgDepth = d)) := by
  induction l with
  | nil => rfl
  | cons t ts ih =>
    simp only [sortByDepth, filter_sortInsert, ih, List.filter_cons]
    by_cases htd : t.avgDepth = d <;> simp [htd]

/-- C3: for every triangle list built by the renderer, after the sort step
the avgDepth values are non-decreasing along the list, and the sort is
stable: triangles with equal avgDepth keep their original relative order
(for every key value, filtering the sorted list to that avgDepth returns
exactly the same subsequence as filtering the input). -/
theorem c3_sort_sorted_stable :
    ∀ l : List Triangle,
      List.Pairwise (fun a b => a.avgDepth ≤ b.avgDepth) (sortByDepth l) ∧
        ∀ d : ℚ,
          (sortByDepth l).filter (fun u => decide (u.avgDepth = d)) =
            l.filter (fun u => decide (u.avgDepth = d)) :=
  fun l => ⟨sortByDepth_pairwise l, fun d => filter_sortByDepth d l⟩

/-- C4 counterexample: on a one-element triangle list the source computes
t = 0 / 0, which is NaN rather than 0, so the single triangle's color is
not (0, 0, 1, 1) as the claim states. -/
theorem c4_counterexample :
    (assignColors [⟨[0, 0, 0, 0, 0, 0, 0, 0, 0], 0⟩]).map Prod.snd ≠
      [⟨JsNum.num 0, JsNum.num 0, JsNum.num 1, JsNum.num 1⟩] := by
  simp [assignColors, assignColorsAux, triangleColor, jsDiv, jsSub1]

/-- C4 (amended): when the triangle list has exactly one element the
gradient parameter is 0 / 0 = NaN — the source contains no explicit
n == 1 edge case — so the single triangle's color is (NaN, 0, NaN, 1);
the computation still completes locally and emits that one triangle, and
no error is raised or propagated. -/
theorem c4_single_triangle_nan :
    ∀ ts : List Triangle, ts.length = 1 →
      (assignColors ts).map Prod.snd =
          [⟨JsNum.nan, JsNum.num 0, JsNum.nan, JsNum.num 1⟩] ∧
        (assignColors ts).map Prod.fst = ts := by
  intro ts h
  obtain ⟨t, rfl⟩ := List.length_eq_one.mp h
  constructor <;>
    simp [assignColors, assignColorsAux, triangleColor, jsDiv, jsSub1]

/-- C4 witness: the amended statement applied to a concrete one-triangle
list. -/
theorem c4_single_triangle_nan_witness :
    ([(⟨[0, 0, 0, 0, 0, 0, 0, 0, 0], 0⟩ : Triangle)].length = 1) ∧
      ((assignColors [⟨[0, 0, 0, 0, 0, 0, 0, 0, 0], 0⟩]).map Prod.snd =
          [⟨JsNum.nan, JsNum.num 0, JsNum.nan, JsNum.num 1⟩] ∧
        (assignColors [⟨[0, 0, 0, 0, 0, 0, 0, 0, 0], 0⟩]).map Prod.fst =
          [⟨[0, 0, 0, 0, 0, 0, 0, 0, 0], 0⟩]) :=
  ⟨by decide,
    c4_single_triangle_nan [⟨[0, 0, 0, 0, 0, 0, 0, 0, 0], 0⟩] (by decide)⟩

theorem assignColorsAux_get (n : Nat) :
    ∀ (i k : Nat) (ts : List Triangle),
      (assignColorsAux n i ts)[k]? =
        (ts[k]?).map fun t => (t, triangleColor (i + k) n) := by
  intro i k ts
  induction ts generalizing i k with
  | nil => simp [assignColorsAux]
  | cons t ts ih =>
    cases k with
    | zero => simp [assignColorsAux]
    | succ k =>
      simp only [assignColorsAux, List.getElem?_cons_succ, ih (i + 1) k]
      rw [show i + 1 + k = i + (k + 1) by omega]

theorem triangleColor_eq (k n : Nat) (h : 1 < n) :
    triangleColor k n =
      ⟨JsNum.num ((k : ℚ) / ((n : ℚ) - 1)), JsNum.num 0,
        JsNum.num (1 - (k : ℚ) / ((n : ℚ) - 1)), JsNum.num 1⟩ := by
  have h1 : (1 : ℚ) < (n : ℚ) := by exact_mod_cast h
  have hne : ((n : ℚ) - 1) ≠ 0 := by linarith
  simp [triangleColor, jsDiv, hne, jsSub1]

/-- C5: for every triangle list with n > 1 elements the element at index
k is emitted with color (t, 0, 1 - t, 1) for t = k / (n - 1); in
particular the first (farthest) triangle gets (0, 0, 1, 1) and the last
(nearest) triangle gets (1, 0, 0, 1). -/
theorem c5_gradient_colors :
    ∀ (ts : List Triangle) (k : Nat), 1 < ts.length → k < ts.length →
      (assignColors ts)[k]? =
          (ts[k]?).map (fun t =>
            (t, ⟨JsNum.num ((k : ℚ) / ((ts.length : ℚ) - 1)), JsNum.num 0,
              JsNum.num (1 - (k : ℚ) / ((ts.length : ℚ) - 1)),
              JsNum.num 1⟩)) ∧
        ((assignColors ts)[0]?).map (fun c => c.2) =
          some ⟨JsNum.num 0, JsNum.num 0, JsNum.num 1, JsNum.num 1⟩ ∧
        ((assignColors ts)[ts.length - 1]?).map (fun c => c.2) =
          some ⟨JsNum.num 1, JsNum.num 0, JsNum.num 0, JsNum.num 1⟩ := by
  intro ts k hn hk
  have hget : ∀ j : Nat,
      (assignColors ts)[j]? = (ts[j]?).map fun t => (t, triangleColor j ts.length) := by
    intro j
    have := assignColorsAux_get ts.length 0 j ts
    simpa [assignColors] using this
  refine ⟨?_, ?_, ?_⟩
  · rw [hget k, triangleColor_eq k ts.length hn]
  · rw [hget 0, List.getElem?_eq_getElem (by omega), triangleColor_eq 0 ts.length hn]
    simp
  · have hlt : ts.length - 1 < ts.length := by omega
    rw [hget (ts.length - 1), List.getElem?_eq_getElem hlt,
      triangleColor_eq (ts.length - 1) ts.length hn]
    have hcast : ((ts.length - 1 : Nat) : ℚ) = (ts.length : ℚ) - 1 := by
      have h1 : 1 ≤ ts.length := by omega
      push_cast [h1]
      ring
    have hne : ((ts.length : ℚ) - 1) ≠ 0 := by
      have h1 : (1 : ℚ) < (ts.length : ℚ) := by exact_mod_cast hn
      linarith
    simp [hcast, div_self hne]

/-- C5 witness: the gradient statement applied to a concrete two-triangle
list at index 1. -/
theorem c5_gradient_colors_witness :
    (1 < ([⟨[], 0⟩, ⟨[], 1⟩] : List Triangle).length) ∧ ((1 : Nat) < 2) ∧
      ((assignColors [⟨[], 0⟩, ⟨[], 1⟩])[(1 : Nat)]? =
          (([⟨[], 0⟩, ⟨[], 1⟩] : List Triangle)[(1 : Nat)]?).map (fun t =>
            (t, ⟨JsNum.num (((1 : Nat) : ℚ) /
                ((([⟨[], 0⟩, ⟨[], 1⟩] : List Triangle).length : ℚ) - 1)),
              JsNum.num 0,
              JsNum.num (1 - ((1 : Nat) : ℚ) /
                ((([⟨[], 0⟩, ⟨[], 1⟩] : List Triangle).length : ℚ) - 1)),
              JsNum.num 1⟩)) ∧
        ((assignColors [⟨[], 0⟩, ⟨[], 1⟩])[(0 : Nat)]?).map (fun c => c.2) =
          some ⟨JsNum.num 0, JsNum.num 0, JsNum.num 1, JsNum.num 1⟩ ∧
        ((assignColors
            [⟨[], 0⟩, ⟨[], 1⟩])[([⟨[], 0⟩, ⟨[], 1⟩] : List Triangle).length - 1]?).map
            (fun c => c.2) =
          some ⟨JsNum.num 1, JsNum.num 0, JsNum.num 0, JsNum.num 1⟩) :=
  ⟨by decide, by decide,
    c5_gradient_colors [⟨[], 0⟩, ⟨[], 1⟩] 1 (by decide) (by decide)⟩

theorem assignColorsAux_map_fst (n : Nat) :
    ∀ (i : Nat) (ts : List Triangle),
      (assignColorsAux n i ts).map Prod.fst = ts := by
  intro i ts
  induction ts generalizing i with
  | nil => rfl
  | cons t ts ih => simp [assignColorsAux, ih]

theorem assignColors_map_fst (ts : List Triangle) :
    (assignColors ts).map Prod.fst = ts :=
  assignColorsAux_map_fst ts.length 0 ts

theorem buildTriangles_vertices (vs : List (Vec3 ℚ)) (m : Mat4) :
    ∀ idxs : List Nat,
      (buildTriangles vs m idxs).map (fun t => t.vertices) = modelTriangles vs idxs
  | [] => rfl
  | [_] => rfl
  | [_, _] => rfl
  | _ :: _ :: _ :: rest => by
    simp only [buildTriangles, modelTriangles, List.map_cons]
    exact congrArg _ (buildTriangles_vertices vs m rest)

/-- C10: one render pass emits each mesh triangle exactly once — the
emitted draw-command sequence is a permutation of the triangle list built
from the mesh — and the vertex positions carried by every draw command
are the original untransformed model-space coordinates fetched from the
mesh: the view matrix feeds only the avgDepth sort key, never the emitted
vertex data. -/
theorem c10_render_permutation_untransformed :
    ∀ (vs : List (Vec3 ℚ)) (idxs : List Nat) (m : Mat4),
      ((renderSphere vs idxs m).map (fun c => c.1)).Perm
          (buildTriangles vs m idxs) ∧
        ((renderSphere vs idxs m).map (fun c => c.1.vertices)).Perm
          (modelTriangles vs idxs) ∧
        (buildTriangles vs m idxs).map (fun t => t.vertices) =
          modelTriangles vs idxs := by
  intro vs idxs m
  have h1 : (renderSphere vs idxs m).map (fun c => c.1) =
      sortByDepth (buildTriangles vs m idxs) :=
    assignColors_map_fst _
  have h2 := sortByDepth_perm (buildTriangles vs m idxs)
  have h3 : (renderSphere vs idxs m).map (fun c => c.1.vertices) =
      ((renderSphere vs idxs m).map (fun c => c.1)).map (fun t => t.vertices) := by
    rw [List.map_map]
    rfl
  refine ⟨h1 ▸ h2, ?_, buildTriangles_vertices vs m idxs⟩
  rw [h3, h1, ← buildTriangles_vertices vs m idxs]
  exact h2.map _

theorem vnormalize_pos_eq (a : Vec3 ℝ) (h : 0 < normSq a) :
    vnormalize a = ⟨a.x * (1 / Real.sqrt (normSq a)),
      a.y * (1 / Real.sqrt (normSq a)), a.z * (1 / Real.sqrt (normSq a))⟩ := by
  have h2 : 0 < a.x * a.x + a.y * a.y + a.z * a.z := h
  simp only [vnormalize]
  rw [if_pos h2]
  rfl

theorem normSq_vnormalize (a : Vec3 ℝ) (h : 0 < normSq a) :
    normSq (vnormalize a) = 1 := by
  rw [vnormalize_pos_eq a h]
  have hs : Real.sqrt (normSq a) * Real.sqrt (normSq a) = normSq a :=
    Real.mul_self_sqrt (le_of_lt h)
  have hspos : 0 < Real.sqrt (normSq a) := Real.sqrt_pos.mpr h
  have hne : Real.sqrt (normSq a) ≠ 0 := ne_of_gt hspos
  simp only [normSq] at hs hne h ⊢
  field_simp

theorem goodV_vnormalize (a : Vec3 ℝ) (h : 0 < normSq a) :
    GoodV (vnormalize a) := by
  unfold GoodV
  rw [normSq_vnormalize a h]
  norm_num

theorem normSq_vadd (u v : Vec3 ℝ) :
    normSq (vadd u v) = normSq u + normSq v + 2 * dotV u v := by
  simp only [normSq, vadd, dotV]
  ring

theorem dotV_comm (u v : Vec3 ℝ) : dotV u v = dotV v u := by
  simp only [dotV]
  ring

theorem dotV_self (v : Vec3 ℝ) : dotV v v = normSq v := rfl

theorem vadd_comm_vec (u v : Vec3 ℝ) : vadd u v = vadd v u := by
  simp only [vadd, Vec3.mk.injEq]
  exact ⟨add_comm _ _, add_comm _ _, add_comm _ _⟩

theorem dotV_vadd_right (u a b : Vec3 ℝ) :
    dotV u (vadd a b) = dotV u a + dotV u b := by
  simp only [dotV, vadd]
  ring

theorem dotV_vadd_vadd (a b c d : Vec3 ℝ) :
    dotV (vadd a b) (vadd c d) = dotV a c + dotV a d + dotV b c + dotV b d := by
  simp only [dotV, vadd]
  ring

theorem dotV_vnormalize_right (u a : Vec3 ℝ) (h : 0 < normSq a) :
    dotV u (vnormalize a) = dotV u a * (1 / Real.sqrt (normSq a)) := by
  rw [vnormalize_pos_eq a h]
  simp only [dotV]
  ring

theorem dotV_vnormalize_both (a b : Vec3 ℝ) (ha : 0 < normSq a)
    (hb : 0 < normSq b) :
    dotV (vnormalize a) (vnormalize b) =
      dotV a b * (1 / Real.sqrt (normSq a)) * (1 / Real.sqrt (normSq b)) := by
  rw [vnormalize_pos_eq a ha, vnormalize_pos_eq b hb]
  simp only [dotV]
  ring

theorem normSq_vadd_lower (u v : Vec3 ℝ) (hu : GoodV u) (hv : GoodV v)
    (hd : -(35 / 100) ≤ dotV u v) : (5 / 4 : ℝ) ≤ normSq (vadd u v) := by
  unfold GoodV at hu hv
  rw [normSq_vadd]
  rcases abs_le.mp hu with ⟨hu1, hu2⟩
  rcases abs_le.mp hv with ⟨hv1, hv2⟩
  linarith

theorem sqrt_ge_one {L : ℝ} (h : (5 / 4 : ℝ) ≤ L) : 1 ≤ Real.sqrt L := by
  rw [show (1 : ℝ) = Real.sqrt 1 from (Real.sqrt_one).symm]
  exact Real.sqrt_le_sqrt (by linarith)

theorem scale_pos_le_one {L : ℝ} (h : (5 / 4 : ℝ) ≤ L) :
    0 < 1 / Real.sqrt L ∧ 1 / Real.sqrt L ≤ 1 := by
  have h1 := sqrt_ge_one h
  have hpos : 0 < Real.sqrt L := by linarith
  constructor
  · positivity
  · rw [div_le_one hpos]
    exact h1

theorem dot_vert_mid (a b : Vec3 ℝ) (ha : GoodV a) (hb : GoodV b)
    (hab : -(35 / 100) ≤ dotV a b) :
    -(35 / 100) ≤ dotV a (vnormalize (vadd a b)) := by
  have hL := normSq_vadd_lower a b ha hb hab
  have hpos : 0 < normSq (vadd a b) := by linarith
  rw [dotV_vnormalize_right a _ hpos, dotV_vadd_right, dotV_self]
  obtain ⟨hs1, hs2⟩ := scale_pos_le_one hL
  unfold GoodV at ha
  rcases abs_le.mp ha with ⟨ha1, ha2⟩
  have hnum : 0 ≤ normSq a + dotV a b := by linarith
  have hmm := mul_nonneg hnum (le_of_lt hs1)
  linarith

theorem dot_vert_mid2 (a b : Vec3 ℝ) (ha : GoodV a) (hb : GoodV b)
    (hab : -(35 / 100) ≤ dotV a b) :
    -(35 / 100) ≤ dotV a (vnormalize (vadd b a)) := by
  rw [vadd_comm_vec b a]
  exact dot_vert_mid a b ha hb hab

theorem neg_bound_mul {N s1 s2 : ℝ} (hN : -(6 / 100 : ℝ) ≤ N) (hs1p : 0 < s1)
    (hs1le : s1 ≤ 1) (hs2p : 0 < s2) (hs2le : s2 ≤ 1) :
    -(35 / 100 : ℝ) ≤ N * s1 * s2 := by
  rcases le_or_lt 0 N with hN0 | hN0
  · have h1 : 0 ≤ N * s1 * s2 :=
      mul_nonneg (mul_nonneg hN0 (le_of_lt hs1p)) (le_of_lt hs2p)
    linarith
  · have hprodle : s1 * s2 ≤ 1 := mul_le_one₀ hs1le (le_of_lt hs2p) hs2le
    have hmono : N * 1 ≤ N * (s1 * s2) :=
      mul_le_mul_of_nonpos_left hprodle (le_of_lt hN0)
    have hassoc : N * s1 * s2 = N * (s1 * s2) := mul_assoc N s1 s2
    have hone : N * 1 = N := mul_one N
    linarith

theorem dot_mid_mid (a b c : Vec3 ℝ) (ha : GoodV a) (hb : GoodV b) (hc : GoodV c)
    (hab : -(35 / 100) ≤ dotV a b) (hbc : -(35 / 100) ≤ dotV b c)
    (hca : -(35 / 100) ≤ dotV c a) :
    -(35 / 100) ≤ dotV (vnormalize (vadd a b)) (vnormalize (vadd b c)) := by
  have hL1 := normSq_vadd_lower a b ha hb hab
  have hL2 := normSq_vadd_lower b c hb hc hbc
  have hp1 : 0 < normSq (vadd a b) := by linarith
  have hp2 : 0 < normSq (vadd b c) := by linarith
  rw [dotV_vnormalize_both _ _ hp1 hp2, dotV_vadd_vadd, dotV_self]
  obtain ⟨hs1p, hs1le⟩ := scale_pos_le_one hL1
  obtain ⟨hs2p, hs2le⟩ := scale_pos_le_one hL2
  unfold GoodV at hb
  rcases abs_le.mp hb with ⟨hb1, hb2⟩
  have hac : -(35 / 100) ≤ dotV a c := by
    rw [dotV_comm]
    exact hca
  exact neg_bound_mul (by linarith) hs1p hs1le hs2p hs2le

theorem goodTri_children (u v w : Vec3 ℝ) (h : GoodTri u v w) :
    GoodTri u (midReal u v) (midReal w u) ∧
      GoodTri v (midReal v w) (midReal u v) ∧
        GoodTri w (midReal w u) (midReal v w) ∧
          GoodTri (midReal u v) (midReal v w) (midReal w u) := by
  obtain ⟨hu, hv, hw, huv, hvw, hwu⟩ := h
  have hvu : -(35 / 100) ≤ dotV v u := by rw [dotV_comm]; exact huv
  have hwv : -(35 / 100) ≤ dotV w v := by rw [dotV_comm]; exact hvw
  have huw : -(35 / 100) ≤ dotV u w := by rw [dotV_comm]; exact hwu
  have hLuv := normSq_vadd_lower u v hu hv huv
  have hLvw := normSq_vadd_lower v w hv hw hvw
  have hLwu := normSq_vadd_lower w u hw hu hwu
  have hpuv : 0 < normSq (vadd u v) := by linarith
  have hpvw : 0 < normSq (vadd v w) := by linarith
  have hpwu : 0 < normSq (vadd w u) := by linarith
  have gm12 : GoodV (midReal u v) := goodV_vnormalize _ hpuv
  have gm23 : GoodV (midReal v w) := goodV_vnormalize _ hpvw
  have gm31 : GoodV (midReal w u) := goodV_vnormalize _ hpwu
  have du12 : -(35 / 100) ≤ dotV u (vnormalize (vadd u v)) :=
    dot_vert_mid u v hu hv huv
  have dv23 : -(35 / 100) ≤ dotV v (vnormalize (vadd v w)) :=
    dot_vert_mid v w hv hw hvw
  have dw31 : -(35 / 100) ≤ dotV w (vnormalize (vadd w u)) :=
    dot_vert_mid w u hw hu hwu
  have du31 : -(35 / 100) ≤ dotV u (vnormalize (vadd w u)) :=
    dot_vert_mid2 u w hu hw huw
  have dv12 : -(35 / 100) ≤ dotV v (vnormalize (vadd u v)) :=
    dot_vert_mid2 v u hv hu hvu
  have dw23 : -(35 / 100) ≤ dotV w (vnormalize (vadd v w)) :=
    dot_vert_mid2 w v hw hv hwv
  have d1223 : -(35 / 100) ≤ dotV (vnormalize (vadd u v)) (vnormalize (vadd v w)) :=
    dot_mid_mid u v w hu hv hw huv hvw hwu
  have d2331 : -(35 / 100) ≤ dotV (vnormalize (vadd v w)) (vnormalize (vadd w u)) :=
    dot_mid_mid v w u hv hw hu hvw hwu huv
  have d3112 : -(35 / 100) ≤ dotV (vnormalize (vadd w u)) (vnormalize (vadd u v)) :=
    dot_mid_mid w u v hw hu hv hwu huv hvw
  have d1231 : -(35 / 100) ≤ dotV (vnormalize (vadd u v)) (vnormalize (vadd w u)) := by
    rw [dotV_comm]
    exact d3112
  have d2312 : -(35 / 100) ≤ dotV (vnormalize (vadd v w)) (vnormalize (vadd u v)) := by
    rw [dotV_comm]
    exact d1223
  have d3123 : -(35 / 100) ≤ dotV (vnormalize (vadd w u)) (vnormalize (vadd v w)) := by
    rw [dotV_comm]
    exact d2331
  have d31u : -(35 / 100) ≤ dotV (vnormalize (vadd w u)) u := by
    rw [dotV_comm]
    exact du31
  have d12v : -(35 / 100) ≤ dotV (vnormalize (vadd u v)) v := by
    rw [dotV_comm]
    exact dv12
  have d23w : -(35 / 100) ≤ dotV (vnormalize (vadd v w)) w := by
    rw [dotV_comm]
    exact dw23
  exact ⟨⟨hu, gm12, gm31, du12, d1231, d31u⟩,
    ⟨hv, gm23, gm12, dv23, d2312, d12v⟩,
    ⟨hw, gm31, gm23, dw31, d3123, d23w⟩,
    ⟨gm12, gm23, gm31, d1223, d2331, d3112⟩⟩

theorem refineSphere_goodV (d : Nat) :
    ∀ (u v w : Vec3 ℝ) (s : Mesh ℝ), GoodTri u v w →
      (∀ x ∈ s.vertices, GoodV x) →
      ∀ x ∈ (refineSphere midReal u v w d s).vertices, GoodV x := by
  induction d with
  | zero =>
    intro u v w s h hs x hx
    obtain ⟨hu, hv, hw, -, -, -⟩ := h
    simp only [refineSphere, List.mem_append, List.mem_cons,
      List.not_mem_nil, or_false] at hx
    rcases hx with hx | rfl | rfl | rfl
    · exact hs x hx
    · exact hu
    · exact hv
    · exact hw
  | succ d ih =>
    intro u v w s h hs x hx
    obtain ⟨h1, h2, h3, h4⟩ := goodTri_children u v w h
    simp only [refineSphere] at hx
    exact ih _ _ _ _ h4 (ih _ _ _ _ h3 (ih _ _ _ _ h2 (ih _ _ _ _ h1 hs))) x hx

theorem goodTri_faces :
    GoodTri initialA initialB initialC ∧ GoodTri initialD initialC initialB ∧
      GoodTri initialA initialD initialB ∧ GoodTri initialA initialC initialD := by
  unfold GoodTri GoodV normSq dotV initialA initialB initialC initialD
  norm_num [abs_le]

theorem goodV_vlen (x : Vec3 ℝ) (h : GoodV x) : |vlen x - 1| ≤ 1 / 100000 := by
  unfold GoodV at h
  rcases abs_le.mp h with ⟨h1, h2⟩
  have hnn : 0 ≤ normSq x := by
    unfold normSq
    linarith [mul_self_nonneg x.x, mul_self_nonneg x.y, mul_self_nonneg x.z]
  rw [abs_le]
  constructor
  · have hb : ((1 : ℝ) - 1 / 100000) ^ 2 ≤ normSq x := by nlinarith
    have hs := Real.sqrt_le_sqrt hb
    rw [Real.sqrt_sq (by norm_num)] at hs
    unfold vlen
    linarith
  · have hb : normSq x ≤ ((1 : ℝ) + 1 / 100000) ^ 2 := by nlinarith
    have hs := Real.sqrt_le_sqrt hb
    rw [Real.sqrt_sq (by norm_num)] at hs
    unfold vlen
    linarith

/-- C6: for every depth, every vertex produced by generate(depth) lies at
Euclidean distance 1 from the origin within the tolerance 1e-5: the four
fixed base points are unit length up to the rounding already present in
their source coordinates, and every midpoint is normalized onto the unit
sphere before use. -/
theorem c6_vertices_on_unit_sphere :
    ∀ depth : Nat,
      ((createSphereBuffers depth).vertices).Forall
        (fun x => |vlen x - 1| ≤ 1 / 100000) := by
  intro depth
  rw [List.forall_iff_forall_mem]
  intro x hx
  apply goodV_vlen
  obtain ⟨f1, f2, f3, f4⟩ := goodTri_faces
  have h0 : ∀ y ∈ (Mesh.mk ([] : List (Vec3 ℝ)) ([] : List Nat)).vertices,
      GoodV y := by
    intro y hy
    simp at hy
  have hs1 := refineSphere_goodV depth initialA initialB initialC _ f1 h0
  have hs2 := refineSphere_goodV depth initialD initialC initialB _ f2 hs1
  have hs3 := refineSphere_goodV depth initialA initialD initialB _ f3 hs2
  exact refineSphere_goodV depth initialA initialC initialD _ f4 hs3 x hx
